import Mathlib

/-!
Verification of the `ised` search-and-replace engine (src/utils.rs, src/app.rs,
src/ui.rs) via a shallow embedding.  Strings are modelled as `List Char`
(byte offsets of the Rust code become character offsets; all slicing in the
embedded code happens at match boundaries, where the two coincide).
-/

namespace Ised

/-- A string, modelled as its list of characters. -/
abbrev Str := List Char

/-! ## Rust `str::replace` (all non-overlapping occurrences, left to right)

`listReplaceCore` is fuel-indexed to make the recursion structural; each step
consumes one unit of fuel and strictly shrinks the haystack (the pattern is
nonempty in the replacing branch), so fuel `s.length` is always sufficient.
The only call site, `listReplace`, supplies exactly that fuel.  The pattern is
always of the form `"$" ++ digits` at every use in this development, hence
nonempty (Rust's `str::replace` with an empty pattern behaves differently,
but that case is never exercised). -/

def listReplaceCore (pat rep : Str) : Nat → Str → Str
  | 0, s => s
  | fuel + 1, s =>
    match s with
    | [] => []
    | c :: rest =>
      if pat ≠ [] ∧ pat.isPrefixOf (c :: rest) then
        rep ++ listReplaceCore pat rep fuel ((c :: rest).drop pat.length)
      else
        c :: listReplaceCore pat rep fuel rest

/-- Rust `s.replace(pat, rep)`: replace every non-overlapping occurrence of
`pat` in `s` by `rep`, scanning left to right. -/
def listReplace (s pat rep : Str) : Str :=
  listReplaceCore pat rep s.length s

/-- The `group_ref` string of `apply_substitution_partial`
(src/utils.rs:68, `format!("${}", i)`): a dollar sign followed by the decimal
digits of `i`. -/
def groupRef (i : Nat) : Str :=
  '$' :: Nat.toDigits 10 i

/-- The replacement closure of `apply_substitution_partial`
(src/utils.rs:65-72).  `groups` holds the texts of the explicit capture groups
`1..count` of one match (`none` when the group did not participate), so Rust's
`caps.len()` is `groups.length + 1` and the loop `for i in 1..caps.len()`
runs over `i = 1, ..., groups.length`; each iteration textually replaces every
occurrence of `"$i"` in the accumulated string by the text of group `i`
(empty string for a non-participating group). -/
def expandTemplate (template : Str) (groups : List (Option Str)) : Str :=
  (List.range' 1 groups.length).foldl
    (fun acc i => listReplace acc (groupRef i) ((groups.getD (i - 1) none).getD []))
    template

/-- One regex match: character offset of the match start, length of the whole
match, and the texts of the explicit capture groups `1..count`
(`none` = group did not participate in the match). -/
structure RMatch where
  start : Nat
  len : Nat
  groups : List (Option Str)
deriving DecidableEq

/-- `Regex::replace_all` with the closure of `apply_substitution_partial`:
given the (ascending, non-overlapping) match list, interleave the unmatched
stretches of `content` with the expanded template, one expansion per match.
`pos` is the offset up to which `content` has already been emitted. -/
def replaceAllFrom (content template : Str) : Nat → List RMatch → Str
  | pos, [] => content.drop pos
  | pos, m :: rest =>
    (content.drop pos).take (m.start - pos)
      ++ expandTemplate template m.groups
      ++ replaceAllFrom content template (m.start + m.len) rest

/-- The external regex engine, as a map from pattern text to `none`
(compilation fails) or the matcher enumerating the non-overlapping matches of
that pattern in a haystack. -/
abbrev RegexCompile := Str → Option (Str → List RMatch)

/-- Modelled from the spec (behaviour of the external `regex` crate): the
fallback pattern `"$^"` of src/utils.rs:63.  Without multi-line mode `$`
matches only at the end of the haystack and `^` only at offset 0, so `"$^"`
has exactly one (empty) match on the empty haystack — where offset 0 is both
the end and the start — and no match on a non-empty haystack. -/
def dollarHatMatches (s : Str) : List RMatch :=
  if s = [] then [⟨0, 0, []⟩] else []

/-- `apply_substitution_partial` (src/utils.rs:58-74), parametrized by the
regex engine: compile `fromPattern`; on compilation failure fall back to the
never-intended-to-match pattern `"$^"`; then replace every match of the
compiled regex in `content` by the closure-expanded template. -/
def apply_substitution_core (compile : RegexCompile)
    (content fromPattern toReplacement : Str) : Str :=
  let matcher := (compile fromPattern).getD dollarHatMatches
  replaceAllFrom content toReplacement 0 (matcher content)

/-! ## Concrete regex engines used by the claims -/

/-- Rust's `\w` on the ASCII inputs of the claims: letters, digits, `_`. -/
def isWordChar (c : Char) : Bool :=
  c.isAlphanum || c = '_'

/-- Modelled from the spec (leftmost-first matching of the external `regex`
crate): scanner for the pattern `"(\w+)@(\w+)"`.  At each offset, a match
requires a maximal nonempty run of word characters, then `'@'`, then a
nonempty run of word characters (greedy; `'@'` is not a word character, so
the maximal first run is the only viable split); on success the scan resumes
after the match, otherwise one character further.  Fuel-indexed for
structural recursion; every step shrinks the haystack, so fuel
`s.length + 1` is sufficient. -/
def emailScanCore : Nat → Str → Nat → List RMatch
  | 0, _, _ => []
  | fuel + 1, s, pos =>
    match s with
    | [] => []
    | c :: rest =>
      let w1 := (c :: rest).takeWhile isWordChar
      match (c :: rest).drop w1.length with
      | '@' :: rest2 =>
        let w2 := rest2.takeWhile isWordChar
        if w1 = [] ∨ w2 = [] then
          emailScanCore fuel rest (pos + 1)
        else
          ⟨pos, w1.length + 1 + w2.length, [some w1, some w2]⟩
            :: emailScanCore fuel (rest2.drop w2.length) (pos + (w1.length + 1 + w2.length))
      | _ => emailScanCore fuel rest (pos + 1)

/-- Matches of `"(\w+)@(\w+)"` in `s`. -/
def emailMatches (s : Str) : List RMatch :=
  emailScanCore (s.length + 1) s 0

/-- A regex engine that knows exactly the pattern `"(\w+)@(\w+)"`. -/
def emailEngine : RegexCompile := fun p =>
  if p = ("(\\w+)@(\\w+)").toList then some emailMatches else none

/-- Modelled from the spec (external `regex` crate): the empty pattern
compiles and matches the empty string at every offset `0, ..., s.length`,
with no capture groups. -/
def emptyPatternMatches (s : Str) : List RMatch :=
  (List.range (s.length + 1)).map fun i => ⟨i, 0, []⟩

/-- A regex engine that knows exactly the empty pattern. -/
def emptyPatternEngine : RegexCompile := fun p =>
  if p = [] then some emptyPatternMatches else none

/-- A regex engine on which every compilation fails — the behaviour of
`Regex::new` on a malformed pattern such as `"("`. -/
def failEngine : RegexCompile := fun _ => none

/-- Modelled from the spec (external `regex` crate): scanner for a pattern
that is a plain literal (no metacharacters): leftmost, non-overlapping
occurrences, no capture groups.  Fuel-indexed as above. -/
def litScanCore (lit : Str) : Nat → Str → Nat → List RMatch
  | 0, _, _ => []
  | fuel + 1, s, pos =>
    match s with
    | [] => []
    | c :: rest =>
      if lit ≠ [] ∧ lit.isPrefixOf (c :: rest) then
        ⟨pos, lit.length, []⟩
          :: litScanCore lit fuel ((c :: rest).drop lit.length) (pos + lit.length)
      else
        litScanCore lit fuel rest (pos + 1)

/-- Matches of the literal pattern `lit` in `s`. -/
def litMatches (lit s : Str) : List RMatch :=
  litScanCore lit (s.length + 1) s 0

/-- A regex engine that knows exactly the literal pattern `"an"`. -/
def litAnEngine : RegexCompile := fun p =>
  if p = ("an").toList then some (litMatches ("an").toList) else none

/-! ## Diff engine (src/utils.rs, `highlight_diff_lines`) -/

/-- Rust `str::split(sep)`: every occurrence of the separator splits, empty
segments are kept, and the result always has one more segment than there are
separators (so the empty string yields one empty segment). -/
def splitOnChar (sep : Char) : Str → List Str
  | [] => [[]]
  | c :: rest =>
    if c = sep then [] :: splitOnChar sep rest
    else
      match splitOnChar sep rest with
      | [] => [[c]]
      | part :: parts => (c :: part) :: parts

/-- Strip one trailing carriage return, as Rust's `str::lines` does to a
segment that was terminated by `'\n'`. -/
def stripCR (l : Str) : Str :=
  if l.getLast? = some '\r' then l.dropLast else l

/-- Rust `str::lines`: split on `'\n'`, strip a trailing `'\r'` from every
segment that was actually terminated by a `'\n'`, and do not produce a final
empty line for a trailing line terminator. -/
def rustLines (s : Str) : List Str :=
  let parts := splitOnChar '\n' s
  parts.dropLast.map stripCR ++
    (match parts.getLast? with
     | some l => if l = [] then [] else [l]
     | none => [])

/-- One rendered diff line of `highlight_diff_lines`: an unstyled unchanged
line, a red `"- "`-tagged removed line, or a green `"+ "`-tagged added
line. -/
inductive DiffLine where
  | unchanged (s : Str)
  | removed (s : Str)
  | added (s : Str)
deriving DecidableEq

/-- `itertools::EitherOrBoth`, the element type of `zip_longest`. -/
inductive EitherOrBoth (α β : Type) where
  | both (a : α) (b : β)
  | left (a : α)
  | right (b : β)

/-- `itertools::zip_longest`: pair the two lists positionally, continuing
one-sidedly past the shorter list. -/
def zipLongest : List α → List β → List (EitherOrBoth α β)
  | [], bs => bs.map .right
  | a :: as, [] => .left a :: zipLongest as []
  | a :: as, b :: bs => .both a b :: zipLongest as bs

/-- The match arms of the `flat_map` in `highlight_diff_lines`
(src/utils.rs:34-54): equal pair — one unchanged line; unequal pair — a
removed line then an added line; left-only — removed; right-only — added. -/
def diffRender : EitherOrBoth Str Str → List DiffLine
  | .both l r => if l = r then [.unchanged l] else [.removed l, .added r]
  | .left l => [.removed l]
  | .right r => [.added r]

/-- `highlight_diff_lines` (src/utils.rs:29-56): zip the two line lists
positionally and render each pair. -/
def highlight_diff_lines (original replaced : Str) : List DiffLine :=
  (zipLongest (rustLines original) (rustLines replaced)).flatMap diffRender

/-- Written from the spec's words (§4.6 diff semantics), for comparison with
`highlight_diff_lines`: pair line `i` of the original with line `i` of the
replacement, continuing past the shorter side; equal pairs are unchanged,
unequal pairs removed-then-added, one-sided lines removed or added. -/
def positionalDiff : List Str → List Str → List DiffLine
  | [], rs => rs.map .added
  | l :: ls, [] => .removed l :: positionalDiff ls []
  | l :: ls, r :: rs =>
    (if l = r then [.unchanged l] else [.removed l, .added r]) ++ positionalDiff ls rs

/-! ## Match highlighting (src/utils.rs, `highlight_match`) -/

/-- One `ratatui` span: its text, and whether it carries the green/bold match
style (`Span::styled`) rather than no style (`Span::raw`). -/
structure Span where
  styled : Bool
  content : Str
deriving DecidableEq

/-- Rust `str::find` with a string pattern: offset of the first occurrence
(`some 0` for the empty pattern). -/
def strFind (text pat : Str) : Option Nat :=
  if pat.isPrefixOf text then some 0
  else
    match text with
    | [] => none
    | _ :: rest => (strFind rest pat).map (· + 1)

/-- `highlight_match` (src/utils.rs:8-27): always a single line; if the
pattern occurs, the line is the text before the first occurrence (omitted
when empty), the styled occurrence, and the text after it (omitted when
empty); otherwise the whole text as one unstyled span. -/
def highlight_match (text pattern : Str) : List (List Span) :=
  match strFind text pattern with
  | some index =>
    let spans0 := if 0 < index then [Span.mk false (text.take index)] else []
    let spans1 := spans0 ++ [Span.mk true ((text.drop index).take pattern.length)]
    let spans2 :=
      if index + pattern.length < text.length then
        spans1 ++ [Span.mk false (text.drop (index + pattern.length))]
      else spans1
    [spans2]
  | none => [[Span.mk false text]]

/-! ## Glob matching and the filter engine (src/app.rs, `filter_files`) -/

/-- Modelled from the spec (documented defaults of the external `globset`
crate): a glob must match the *entire* candidate path, `*` matches any
sequence of characters including the path separator (`literal_separator` is
off by default), `?` matches exactly one character, and every other
character matches itself.  Fuel-indexed for structural recursion; every
recursive call shrinks `pat.length + s.length`, so the fuel supplied by
`globMatch` is sufficient. -/
def globMatchCore : Nat → Str → Str → Bool
  | 0, _, _ => false
  | fuel + 1, pat, s =>
    match pat, s with
    | [], [] => true
    | [], _ :: _ => false
    | '*' :: ps, s =>
      globMatchCore fuel ps s ||
        (match s with
         | [] => false
         | _ :: rest => globMatchCore fuel ('*' :: ps) rest)
    | _ :: _, [] => false
    | p :: ps, c :: rest =>
      if p = '?' then globMatchCore fuel ps rest
      else (p = c : Bool) && globMatchCore fuel ps rest

/-- Whole-path glob match, `globset::GlobMatcher::is_match`. -/
def globMatch (pat s : Str) : Bool :=
  globMatchCore (pat.length + s.length + 1) pat s

/-- Modelled from the spec: `Glob::new` validity.  Every glob appearing in
the verified claims is syntactically valid, so compilation always succeeds
here; the skipped-malformed-clause behaviour of `filter_files` is kept in
the structure below but never exercised. -/
def globValid : Str → Bool := fun _ => true

/-- The external regex engine as seen by `filter_files`: whether a pattern
compiles, and whether a compiled pattern matches a haystack (compiled
matchers are determined by their pattern text). -/
structure RegexSem where
  ok : Str → Bool
  isMatch : Str → Str → Bool

/-- The mutable state of `App` that `filter_files`, the watcher callback and
`apply_substitution` touch: the file index, the three query strings, the
content cache (`file_cache`), the single-slot filter memo
(`filtered_files_cache`) and the regex cache (a compiled matcher is
determined by its pattern text, so only the key set is modelled). -/
structure AppState where
  files : List Str
  filter_input : Str
  from_input : Str
  to_input : Str
  file_cache : Str → Option Str
  filtered_files_cache : Option (Str × Str × List Str)
  regex_cache : Str → Bool

/-- Rust `str::trim` on the ASCII inputs of the claims. -/
def trimChars (s : Str) : Str :=
  ((s.dropWhile Char.isWhitespace).reverse.dropWhile Char.isWhitespace).reverse

/-- src/app.rs:240-245: split the glob query on commas, trim each clause,
drop empty clauses. -/
def parseClauses (filter_input : Str) : List Str :=
  ((splitOnChar ',' filter_input).map trimChars).filter (fun p => p ≠ [])

/-- The exclude glob set: clauses with a leading `'!'` stripped, keeping only
those that compile (src/app.rs:252-255). -/
def excludePatterns (clauses : List Str) : List Str :=
  clauses.filterMap fun p =>
    match p with
    | '!' :: rest => if globValid rest then some rest else none
    | _ => none

/-- The include glob set: clauses without a leading `'!'`, keeping only those
that compile (src/app.rs:256-260). -/
def includePatterns (clauses : List Str) : List Str :=
  clauses.filterMap fun p =>
    match p with
    | '!' :: _ => none
    | _ => if globValid p then some p else none

/-- `has_include` (src/app.rs:249,257): set as soon as any clause without a
leading `'!'` exists, before glob compilation is attempted. -/
def hasInclude (clauses : List Str) : Bool :=
  clauses.any fun p =>
    match p with
    | '!' :: _ => false
    | _ => true

/-- The include test of one file (src/app.rs:288-295): with at least one
include clause the file must match some include glob, otherwise it passes
vacuously. -/
def includedTest (clauses : List Str) (f : Str) : Bool :=
  if hasInclude clauses then (includePatterns clauses).any fun pat => globMatch pat f
  else true

/-- The exclude test of one file (src/app.rs:297-300): matching any exclude
glob. -/
def excludedTest (clauses : List Str) (f : Str) : Bool :=
  (excludePatterns clauses).any fun pat => globMatch pat f

/-- The content test of one file (src/app.rs:302-321): with no compiled
content regex the test passes; otherwise the content is taken from the
content cache, read through on a miss (recording the read and caching the
content), and a file whose read fails counts as non-matching.  Returns the
test result, the updated content cache, and the paths read. -/
def contentTest (rsem : RegexSem) (readFile : Str → Option Str) (from_re : Option Str)
    (fc : Str → Option Str) (f : Str) : Bool × (Str → Option Str) × List Str :=
  match from_re with
  | none => (true, fc, [])
  | some pat =>
    match fc f with
    | some content => (rsem.isMatch pat content, fc, [])
    | none =>
      match readFile f with
      | some content =>
        (rsem.isMatch pat content, fun q => if q = f then some content else fc q, [f])
      | none => (false, fc, [f])

/-- One step of the filter fold over the index (src/app.rs:284-326): all
three tests are computed (the content test — and hence its file read — is
not short-circuited by the glob tests), and the file is kept when it is
included, not excluded, and content-matching. -/
def filterStep (rsem : RegexSem) (readFile : Str → Option Str) (clauses : List Str)
    (from_re : Option Str) (acc : List Str × (Str → Option Str) × List Str) (f : Str) :
    List Str × (Str → Option Str) × List Str :=
  let included := includedTest clauses f
  let excluded := excludedTest clauses f
  let step := contentTest rsem readFile from_re acc.2.1 f
  (if included && !excluded && step.1 then acc.1 ++ [f] else acc.1,
   step.2.1, acc.2.2 ++ step.2.2)

/-- The outcome of one `filter_files` call: the filtered list, the state
after the call, and the file paths whose contents were read from disk. -/
structure FilterOutcome where
  result : List Str
  state : AppState
  reads : List Str

/-- The recomputation path of `filter_files` (src/app.rs:240-337): parse the
glob clauses; resolve the content regex — a non-empty query is first looked
up in the regex cache, and on a miss (including the empty query, whose
cache branch yields `None`) the query is compiled and cached on success;
fold the three-way test over the index; store the result in the filter memo
keyed by the exact current query pair. -/
def filterRecompute (rsem : RegexSem) (readFile : Str → Option Str) (st : AppState) :
    FilterOutcome :=
  let clauses := parseClauses st.filter_input
  let fromCached : Bool := if st.from_input ≠ [] then st.regex_cache st.from_input else false
  let fromAndCache : Option Str × (Str → Bool) :=
    if fromCached then (some st.from_input, st.regex_cache)
    else if rsem.ok st.from_input then
      (some st.from_input, fun q => if q = st.from_input then true else st.regex_cache q)
    else (none, st.regex_cache)
  let folded := st.files.foldl (filterStep rsem readFile clauses fromAndCache.1)
    ([], st.file_cache, [])
  { result := folded.1
    state :=
      { st with
        file_cache := folded.2.1
        regex_cache := fromAndCache.2
        filtered_files_cache := some (st.filter_input, st.from_input, folded.1) }
    reads := folded.2.2 }

/-- `filter_files` (src/app.rs:224-338): fast path returning the whole index
when both trimmed queries are empty; then the single-slot memo, hit only
when both stored query strings equal the current ones exactly; otherwise the
recomputation path. -/
def filterFiles (rsem : RegexSem) (readFile : Str → Option Str) (st : AppState) :
    FilterOutcome :=
  if trimChars st.filter_input = [] ∧ trimChars st.from_input = [] then
    ⟨st.files, st, []⟩
  else
    match st.filtered_files_cache with
    | some (cf, cfr, cfi) =>
      if cf = st.filter_input ∧ cfr = st.from_input then ⟨cfi, st, []⟩
      else filterRecompute rsem readFile st
    | none => filterRecompute rsem readFile st

/-! ## Watcher callback (src/app.rs:155-172) -/

/-- The kinds of `notify` filesystem events the watcher callback
distinguishes. -/
inductive EventKind where
  | create
  | modify
  | remove
  | access
  | other
deriving DecidableEq

/-- The watcher callback (src/app.rs:155-172): on a create or modify event
carrying at least one path, remove that first path's content-cache entry and
clear the filter memo; every other event kind (and a pathless event) changes
nothing.  The callback touches only the two caches. -/
def onWatchEvent (kind : EventKind) (paths : List Str) (st : AppState) : AppState :=
  match kind with
  | .create | .modify =>
    match paths.head? with
    | some p =>
      { st with
        file_cache := fun q => if q = p then none else st.file_cache q
        filtered_files_cache := none }
    | none => st
  | _ => st

/-! ## Preview and commit (src/ui.rs:206-208, src/app.rs:425-440, 743-759) -/

/-- The replacement text the diff preview shows (src/ui.rs:207): the same
`apply_substitution_partial` call the commit path performs. -/
def previewReplaced (compile : RegexCompile) (content fromI toI : Str) : Str :=
  apply_substitution_core compile content fromI toI

/-- The filesystem as the commit path sees it: readable content per path
(`none` = read error) and per-path writability. -/
structure FS where
  content : Str → Option Str
  writable : Str → Bool

/-- `App::apply_substitution` (src/app.rs:743-759): read the file (read
failure is the per-file error, nothing changes), compute the replacement
exactly as the preview does, write the file in full (write failure is the
per-file error, and the caches are *not* touched), then drop the path's
content-cache entry and clear the filter memo.  Returns success, the new
filesystem, and the new app state. -/
def apply_substitution (compile : RegexCompile) (fs : FS) (st : AppState) (path : Str) :
    Bool × FS × AppState :=
  match fs.content path with
  | none => (false, fs, st)
  | some content =>
    let replaced := previewReplaced compile content st.from_input st.to_input
    if fs.writable path then
      (true,
       { fs with content := fun q => if q = path then some replaced else fs.content q },
       { st with
         file_cache := fun q => if q = path then none else st.file_cache q
         filtered_files_cache := none })
    else (false, fs, st)

/-- The batch commit (src/app.rs:433-437): apply the substitution to every
path in order, discarding each per-file result (`let _ = ...`), so an error
on one path never stops the remaining paths. -/
def commitAll (compile : RegexCompile) (fs : FS) (st : AppState) (paths : List Str) :
    FS × AppState :=
  paths.foldl
    (fun acc p =>
      let r := apply_substitution compile acc.1 acc.2 p
      (r.2.1, r.2.2))
    (fs, st)

/-! ## Concrete instances used by individual claims -/

/-- Modelled from the spec (external `regex` crate), restricted to the only
pattern the concrete filter scenarios compile — the empty content query:
`Regex::new("")` succeeds and the empty regex matches every haystack. -/
def rsemMatchAll : RegexSem :=
  ⟨fun _ => true, fun _ _ => true⟩

/-- A filesystem on which every read succeeds with empty content. -/
def readEmpty : Str → Option Str := fun _ => some []

/-- A filesystem on which every read fails. -/
def readNone : Str → Option Str := fun _ => none

/-- Scenario for the glob-precedence example: two files, glob query
`"*.rs,!mod.rs"`, empty content query, cold caches. -/
def stC4 : AppState :=
  { files := [("src/mod.rs").toList, ("src/lib.rs").toList]
    filter_input := ("*.rs,!mod.rs").toList
    from_input := []
    to_input := []
    file_cache := fun _ => none
    filtered_files_cache := none
    regex_cache := fun _ => false }

/-- The same scenario with an exclude clause that matches the entire path
`src/mod.rs`. -/
def stC4b : AppState :=
  { stC4 with filter_input := ("*.rs,!src/mod.rs").toList }

/-- Scenario for the empty-content-query read behaviour: one glob-matching
file, empty content query, cold caches (the file will turn out to be
unreadable). -/
def stC6 : AppState :=
  { files := [("a.rs").toList]
    filter_input := ("*.rs").toList
    from_input := []
    to_input := []
    file_cache := fun _ => none
    filtered_files_cache := none
    regex_cache := fun _ => false }

/-- Scenario for a filter-memo hit: the stored query pair equals the current
query pair exactly. -/
def stC5 : AppState :=
  { files := [("f1").toList, ("f2").toList]
    filter_input := ("x").toList
    from_input := ("y").toList
    to_input := []
    file_cache := fun _ => none
    filtered_files_cache := some (("x").toList, ("y").toList, [("f1").toList])
    regex_cache := fun _ => false }

/-- A state with warm caches, for the watcher-event witness. -/
def stW : AppState :=
  { files := [("a").toList]
    filter_input := []
    from_input := []
    to_input := []
    file_cache := fun _ => some []
    filtered_files_cache := some ([], [], [])
    regex_cache := fun _ => false }

/-- Batch-commit scenario: three readable files containing `"banana"`, the
second of which is unwritable. -/
def fsC8 : FS :=
  { content := fun p =>
      if p = ("f1").toList ∨ p = ("f2").toList ∨ p = ("f3").toList
      then some (("banana").toList) else none
    writable := fun p => p ≠ ("f2").toList }

/-- App state for the batch-commit scenario: substitute `"an"` by `"X"`. -/
def stC8 : AppState :=
  { files := []
    filter_input := []
    from_input := ("an").toList
    to_input := ("X").toList
    file_cache := fun _ => some []
    filtered_files_cache := some ([], [], [])
    regex_cache := fun _ => false }

/-- The three paths of the batch-commit scenario. -/
def pathsC8 : List Str :=
  [("f1").toList, ("f2").toList, ("f3").toList]

/-- Both query strings trim to empty — the fast-path condition of
`filter_files` (src/app.rs:227). -/
def bothTrimEmpty (st : AppState) : Prop :=
  trimChars st.filter_input = [] ∧ trimChars st.from_input = []

/-- The invariant every reachable filter memo satisfies: a stored query pair
never has both strings trim-empty, because the store at src/app.rs:328-335
only runs after the fast path has been passed.  (`load_files`, the watcher
and a commit reset the memo to `None`.) -/
def memoWF (st : AppState) : Prop :=
  ∀ cf cfr cfi, st.filtered_files_cache = some (cf, cfr, cfi) →
    ¬(trimChars cf = [] ∧ trimChars cfr = [])

/-! ## Helper lemmas: decimal digits -/

theorem toDigitsCore_length (fuel n : Nat) (ds : List Char) (h : 1 ≤ fuel) :
    ds.length + 1 ≤ (Nat.toDigitsCore 10 fuel n ds).length := by
  induction fuel generalizing n ds with
  | zero => omega
  | succ fuel ih =>
    simp only [Nat.toDigitsCore]
    split
    · simp
    · rcases Nat.eq_zero_or_pos fuel with h0 | hpos
      · subst h0; simp [Nat.toDigitsCore]
      · have := ih (n / 10) (Nat.digitChar (n % 10) :: ds) hpos
        simp only [List.length_cons] at this
        omega

theorem toDigits_ten_ne_nil (n : Nat) : Nat.toDigits 10 n ≠ [] := by
  intro hc
  have := toDigitsCore_length (n + 1) n [] (by omega)
  rw [show Nat.toDigitsCore 10 (n + 1) n [] = Nat.toDigits 10 n from rfl, hc] at this
  simp at this

theorem toDigits_ten_lt10 (n : Nat) (h : n < 10) :
    Nat.toDigits 10 n = [Nat.digitChar n] := by
  simp [Nat.toDigits, Nat.toDigitsCore, Nat.div_eq_of_lt h, Nat.mod_eq_of_lt h]

theorem toDigits_ten_ne_zeroChar (n : Nat) (h : 1 ≤ n) : Nat.toDigits 10 n ≠ ['0'] := by
  by_cases h10 : n < 10
  · rw [toDigits_ten_lt10 n h10]
    have : ∀ m : Fin 10, 1 ≤ m.val → Nat.digitChar m.val ≠ '0' := by decide
    intro hc
    exact this ⟨n, h10⟩ h (by simpa using hc)
  · intro hc
    have hlen : (Nat.toDigits 10 n).length = 1 := by rw [hc]; rfl
    have hdiv : ¬(n / 10 = 0) := by
      have : 0 < n / 10 := Nat.div_pos (by omega) (by omega)
      omega
    have h2 : 2 ≤ (Nat.toDigits 10 n).length := by
      show 2 ≤ (Nat.toDigitsCore 10 (n + 1) n []).length
      simp only [Nat.toDigitsCore]
      rw [if_neg hdiv]
      have := toDigitsCore_length n (n / 10) [Nat.digitChar (n % 10)] (by omega)
      simpa using this
    omega

theorem digitChar_ne_dollar : ∀ i : Fin 10, ¬(Nat.digitChar i.val = '$') := by decide

theorem digitChar_inj10 : ∀ i j : Fin 10, i.val ≠ j.val →
    ¬(Nat.digitChar i.val = Nat.digitChar j.val) := by decide

/-! ## Helper lemmas: textual `$N` replacement left literal -/

theorem isPrefixOf_single_false (ds : Str) (b : Char) (hne : ds ≠ []) (hne2 : ds ≠ [b]) :
    ds.isPrefixOf [b] = false := by
  cases ds with
  | nil => simp at hne
  | cons d t =>
    cases t with
    | nil =>
      have hdb : d ≠ b := fun hc => hne2 (by rw [hc])
      simp [List.isPrefixOf, hdb]
    | cons d2 t2 => simp [List.isPrefixOf]

theorem listReplace_keep_pair (a b : Char) (pat rep : Str)
    (h1 : pat.isPrefixOf [a, b] = false) (h2 : pat.isPrefixOf [b] = false) :
    listReplace [a, b] pat rep = [a, b] := by
  simp [listReplace, listReplaceCore, h1, h2]

theorem listReplace_keep_dollar (x : Char) (i : Nat) (r : Str)
    (hx : ¬('$' = x)) (h1 : (Nat.toDigits 10 i).isPrefixOf [x] = false) :
    listReplace ['$', x] (groupRef i) r = ['$', x] := by
  apply listReplace_keep_pair
  · simp [groupRef, List.isPrefixOf, h1]
  · simp [groupRef, List.isPrefixOf, hx]

theorem foldl_listReplace_keep (g : Nat → Str) (s : Str) (idxs : List Nat)
    (h : ∀ i ∈ idxs, ∀ r, listReplace s (groupRef i) r = s) :
    idxs.foldl (fun acc i => listReplace acc (groupRef i) (g i)) s = s := by
  induction idxs with
  | nil => rfl
  | cons i t ih =>
    simp only [List.foldl_cons]
    rw [h i (by simp) (g i)]
    exact ih fun j hj r => h j (by simp [hj]) r

theorem expandTemplate_dollar_zero (groups : List (Option Str)) :
    expandTemplate ['$', '0'] groups = ['$', '0'] := by
  unfold expandTemplate
  apply foldl_listReplace_keep
  intro i hi r
  have h1 : 1 ≤ i := (List.mem_range'_1.mp hi).1
  apply listReplace_keep_dollar
  · decide
  · exact isPrefixOf_single_false _ _ (toDigits_ten_ne_nil i) (toDigits_ten_ne_zeroChar i h1)

theorem expandTemplate_single_digit (groups : List (Option Str)) (N : Nat)
    (hcount : groups.length < N) (hN : N < 10) :
    expandTemplate ('$' :: Nat.toDigits 10 N) groups = '$' :: Nat.toDigits 10 N := by
  rw [toDigits_ten_lt10 N hN]
  unfold expandTemplate
  apply foldl_listReplace_keep
  intro i hi r
  have hmem := List.mem_range'_1.mp hi
  have hi10 : i < 10 := by omega
  have hiN : i ≠ N := by omega
  apply listReplace_keep_dollar
  · exact fun hc => digitChar_ne_dollar ⟨N, hN⟩ hc.symm
  · rw [toDigits_ten_lt10 i hi10]
    apply isPrefixOf_single_false
    · simp
    · simp only [ne_eq, List.cons.injEq, and_true]
      exact digitChar_inj10 ⟨i, hi10⟩ ⟨N, hN⟩ hiN

/-! ## Claim C1 -/

/-- C1, counterexample: the claim asserts that any `$N` token with
`N > count` is left literal.  With pattern `"(\w+)@(\w+)"` (`count = 2`) and
template `"$12"` on `"alice@example"`, the loop's `i = 1` pass textually
rewrites the `"$1"` inside `"$12"`, so the output is `"alice2"` — the token
`$12` is not left literal (the claim predicts output `"$12"`). -/
theorem C1_counterexample :
    apply_substitution_core emailEngine (("alice@example").toList)
        (("(\\w+)@(\\w+)").toList) (("$12").toList) = ("alice2").toList
    ∧ apply_substitution_core emailEngine (("alice@example").toList)
        (("(\\w+)@(\\w+)").toList) (("$12").toList) ≠ ("$12").toList := by
  decide

/-- C1, amended: every non-overlapping match is replaced by the template with
each `$i` token substituted in index order `1..count` by the text of group
`i` (so a token whose digits begin with the digits of a smaller group index,
like `$12` when `count < 12`, is consumed by that earlier index); pattern
`"(\w+)@(\w+)"` with template `"$2-$1"` on `"alice@example"` yields
`"example-alice"`; a `$0` token is always left literal; and a `$N` token with
single-digit `N > count` is left literal. -/
theorem C1_amended :
    apply_substitution_core emailEngine (("alice@example").toList)
        (("(\\w+)@(\\w+)").toList) (("$2-$1").toList) = ("example-alice").toList
    ∧ (∀ groups : List (Option Str), expandTemplate (("$0").toList) groups = ("$0").toList)
    ∧ (∀ (groups : List (Option Str)) (N : Nat), groups.length < N → N < 10 →
        expandTemplate ('$' :: Nat.toDigits 10 N) groups = '$' :: Nat.toDigits 10 N) := by
  refine ⟨by decide, fun groups => expandTemplate_dollar_zero groups,
    fun groups N h1 h2 => expandTemplate_single_digit groups N h1 h2⟩

/-- C1 witness: the amended `$N > count` clause at `count = 1`, `N = 5`. -/
theorem C1_amended_witness :
    ([some (("x").toList)] : List (Option Str)).length < 5 ∧ 5 < 10 ∧
    expandTemplate ('$' :: Nat.toDigits 10 5) [some (("x").toList)] =
      '$' :: Nat.toDigits 10 5 :=
  ⟨by decide, by decide, C1_amended.2.2 [some (("x").toList)] 5 (by decide) (by decide)⟩

/-! ## Claim C3 -/

/-- C3: on a pattern that fails to compile, the fallback regex `"$^"` makes
substitution a no-op on every *non-empty* content, but on the empty content
it matches once, so the template is emitted: content `""`, pattern `"("`,
template `"x"` yields `"x"`, not the unchanged input the claim requires. -/
theorem C3_bug_eval :
    (apply_substitution_core failEngine [] (("(").toList) (("x").toList) = ("x").toList
      ∧ ("x").toList ≠ ([] : Str))
    ∧ (∀ content : Str, content ≠ [] → ∀ t : Str,
        apply_substitution_core failEngine content (("(").toList) t = content) := by
  refine ⟨by decide, fun content hne t => ?_⟩
  simp [apply_substitution_core, failEngine, dollarHatMatches, hne, replaceAllFrom]

/-- C3 witness: the non-empty-content no-op clause at content `"a"`. -/
theorem C3_bug_eval_witness :
    ("a").toList ≠ ([] : Str) ∧
    apply_substitution_core failEngine (("a").toList) (("(").toList) (("x").toList)
      = ("a").toList :=
  ⟨by decide, C3_bug_eval.2 (("a").toList) (by decide) (("x").toList)⟩

/-! ## Claim C6 -/

/-- C6: with a *non-empty* glob query and an *empty* content query, the
`or_else` at src/app.rs:276 still compiles the (empty) content pattern, so
the filter reads every file after all, and a file whose read fails is
dropped: on the scenario `stC6` (one glob-matching file `a.rs` that cannot
be read) the result is empty and `a.rs` was read — the claim requires the
file to be kept with no read.  The include test itself passes. -/
theorem C6_bug_eval :
    (filterFiles rsemMatchAll readNone stC6).result = []
    ∧ (filterFiles rsemMatchAll readNone stC6).reads = [("a.rs").toList]
    ∧ includedTest (parseClauses (("*.rs").toList)) (("a.rs").toList) = true := by
  decide

/-! ## Claim C2 -/

theorem zipLongest_flatMap_diffRender (ls : List Str) : ∀ rs : List Str,
    (zipLongest ls rs).flatMap diffRender = positionalDiff ls rs := by
  induction ls with
  | nil =>
    intro rs
    induction rs with
    | nil => rfl
    | cons r rs ihr =>
      simp only [zipLongest, List.map_cons, List.flatMap_cons, positionalDiff] at *
      rw [ihr]
      rfl
  | cons l ls ih =>
    intro rs
    cases rs with
    | nil =>
      simp only [zipLongest, List.flatMap_cons, positionalDiff]
      rw [ih []]
      rfl
    | cons r rs =>
      simp only [zipLongest, List.flatMap_cons, positionalDiff]
      rw [ih rs]
      rfl

/-- C2: the diff is the positional pairing diff — `highlight_diff_lines`
coincides with the spec-side `positionalDiff` of the two line lists on every
input, and the claim's two concrete examples evaluate as stated. -/
theorem C2_diff :
    (∀ o r : Str, highlight_diff_lines o r = positionalDiff (rustLines o) (rustLines r))
    ∧ highlight_diff_lines (("a\nb\nc").toList) (("a\nx\nc").toList) =
        [.unchanged (("a").toList), .removed (("b").toList), .added (("x").toList),
          .unchanged (("c").toList)]
    ∧ highlight_diff_lines (("a").toList) (("a\nb").toList) =
        [.unchanged (("a").toList), .added (("b").toList)] :=
  ⟨fun o r => zipLongest_flatMap_diffRender (rustLines o) (rustLines r), by decide, by decide⟩

/-! ## Claim C9 -/

theorem expandTemplate_nil (t : Str) : expandTemplate t [] = t := rfl

theorem replaceAllFrom_shift (content t : Str) (pos : Nat) (m : RMatch) (rest : List RMatch)
    (hm : m.start = pos + 1) :
    replaceAllFrom content t pos (m :: rest) =
      (content.drop pos).take 1 ++ replaceAllFrom content t (pos + 1) (m :: rest) := by
  simp only [replaceAllFrom, hm, Nat.add_sub_cancel_left, Nat.sub_self, List.take_zero,
    List.nil_append, List.append_assoc]

theorem replaceAllFrom_empty_aux (t tail : Str) : ∀ (content : Str) (pos : Nat),
    content.drop pos = tail →
    replaceAllFrom content t pos
        ((List.range' pos (tail.length + 1)).map fun i => RMatch.mk i 0 []) =
      tail.foldr (fun c acc => t ++ c :: acc) t := by
  induction tail with
  | nil =>
    intro content pos h
    simp [List.range'_succ, List.range', replaceAllFrom, expandTemplate, h]
  | cons c tl ih =>
    intro content pos h
    have hdrop1 : content.drop (pos + 1) = tl := by
      have hdd : content.drop (pos + 1) = (content.drop pos).drop 1 := by
        rw [List.drop_drop]
      rw [hdd, h]
      rfl
    have IH := ih content (pos + 1) hdrop1
    rw [List.range'_succ, List.map_cons] at IH
    simp only [replaceAllFrom, Nat.sub_self, List.take_zero, List.nil_append, Nat.add_zero,
      expandTemplate_nil] at IH
    show replaceAllFrom content t pos
        ((List.range' pos (tl.length + 1 + 1)).map fun i => RMatch.mk i 0 []) = _
    rw [List.range'_succ, List.map_cons, List.range'_succ, List.map_cons]
    simp only [replaceAllFrom, Nat.sub_self, List.take_zero, List.nil_append, Nat.add_zero,
      Nat.add_sub_cancel_left, expandTemplate_nil, h, List.take_succ_cons,
      List.singleton_append, List.cons_append, List.append_assoc, List.foldr_cons]
    rw [IH]

/-- C9: substitution with the empty `from_pattern` is not the identity — the
empty pattern matches at every position, so for every content `c₁ ⋯ cₙ` and
template `t` the output is `t ++ c₁ ++ t ++ ⋯ ++ cₙ ++ t`, and with no
capture groups the template is emitted verbatim (every `$N` token left
literal). -/
theorem C9_empty_pattern (content t : Str) :
    apply_substitution_core emptyPatternEngine content [] t =
      content.foldr (fun c acc => t ++ c :: acc) t
    ∧ expandTemplate t [] = t := by
  refine ⟨?_, expandTemplate_nil t⟩
  have h : apply_substitution_core emptyPatternEngine content [] t =
      replaceAllFrom content t 0
        ((List.range' 0 (content.length + 1)).map fun i => RMatch.mk i 0 []) := by
    simp [apply_substitution_core, emptyPatternEngine, emptyPatternMatches,
      List.range_eq_range']
  rw [h]
  exact replaceAllFrom_empty_aux t content content 0 rfl

/-! ## Claim C10 -/

theorem list_take_drop_decomp (l : List α) (i L : Nat) :
    l.take i ++ ((l.drop i).take L ++ l.drop (i + L)) = l := by
  have h1 : l.drop (i + L) = (l.drop i).drop L := by rw [List.drop_drop]
  rw [h1, List.take_append_drop, List.take_append_drop]

/-- C10: `highlight_match` preserves its input — the concatenation of all
span contents of all returned lines is exactly the input text, and the
result is always a single line. -/
theorem C10_highlight (text pattern : Str) :
    ((highlight_match text pattern).map fun line => (line.map Span.content).flatten).flatten
      = text
    ∧ (highlight_match text pattern).length = 1 := by
  unfold highlight_match
  cases hf : strFind text pattern with
  | none => simp
  | some i =>
    refine ⟨?_, by simp⟩
    have key := list_take_drop_decomp text i pattern.length
    by_cases h0 : 0 < i <;> by_cases h1 : i + pattern.length < text.length
    · simp [h0, h1, key]
    · have hd : text.drop (i + pattern.length) = [] :=
        List.drop_eq_nil_of_le (by omega)
      rw [hd, List.append_nil] at key
      simp [h0, h1, hd, key]
    · have hi : i = 0 := by omega
      subst hi
      have h1' : pattern.length < text.length := by omega
      simp [h1', List.take_append_drop]
    · have hi : i = 0 := by omega
      subst hi
      have h1' : ¬(pattern.length < text.length) := by omega
      have hd : text.drop pattern.length = [] :=
        List.drop_eq_nil_of_le (by omega)
      have key2 := List.take_append_drop pattern.length text
      rw [hd, List.append_nil] at key2
      simp [h1', key2]

/-! ## Claim C4 -/

theorem filterFold_not_mem (rsem : RegexSem) (readFile : Str → Option Str)
    (clauses : List Str) (from_re : Option Str) (f : Str)
    (hex : excludedTest clauses f = true) :
    ∀ (files : List Str) (acc : List Str × (Str → Option Str) × List Str),
      f ∉ acc.1 → f ∉ (files.foldl (filterStep rsem readFile clauses from_re) acc).1 := by
  intro files
  induction files with
  | nil => exact fun acc h => h
  | cons x files ih =>
    intro acc h
    rw [List.foldl_cons]
    apply ih
    simp only [filterStep]
    by_cases hx : x = f
    · subst hx
      simp only [hex, Bool.not_true, Bool.and_false, Bool.false_and, if_false]
      exact h
    · split
      · intro hc
        rcases List.mem_append.mp hc with hmem | hmem
        · exact h hmem
        · exact hx (List.mem_singleton.mp hmem).symm
      · exact h

/-- C4, counterexample: with glob query `"*.rs,!mod.rs"` the path
`src/mod.rs` is *not* excluded — globset globs must match the entire path,
and `mod.rs` does not match `src/mod.rs` — so the file appears in the filter
result, contrary to the claim. -/
theorem C4_counterexample :
    ("src/mod.rs").toList ∈ (filterFiles rsemMatchAll readEmpty stC4).result
    ∧ excludedTest (parseClauses (("*.rs,!mod.rs").toList)) (("src/mod.rs").toList)
        = false := by
  decide

/-- C4, amended: a file matching any exclude glob clause is rejected
regardless of the include result, and with no include clauses every file
passes the include test vacuously; but a glob must match the entire path, so
with query `"*.rs,!mod.rs"` the path `src/mod.rs` is *included* — excluding
it needs a whole-path clause such as `"!src/mod.rs"`, with which
`src/mod.rs` is excluded while `src/lib.rs` is included. -/
theorem C4_amended :
    (∀ (rsem : RegexSem) (readFile : Str → Option Str) (st : AppState) (f : Str),
        excludedTest (parseClauses st.filter_input) f = true →
        f ∉ (filterRecompute rsem readFile st).result)
    ∧ (∀ (clauses : List Str) (f : Str), hasInclude clauses = false →
        includedTest clauses f = true)
    ∧ (("src/mod.rs").toList ∉ (filterFiles rsemMatchAll readEmpty stC4b).result
        ∧ ("src/lib.rs").toList ∈ (filterFiles rsemMatchAll readEmpty stC4b).result) := by
  refine ⟨?_, ?_, by decide⟩
  · intro rsem readFile st f hex
    show f ∉ (filterRecompute rsem readFile st).result
    simp only [filterRecompute]
    exact filterFold_not_mem rsem readFile (parseClauses st.filter_input) _ f hex
      st.files ([], st.file_cache, []) (by simp)
  · intro clauses f hni
    simp [includedTest, hni]

/-- C4 witness: the exclude-wins clause at the concrete amended scenario. -/
theorem C4_amended_witness :
    excludedTest (parseClauses stC4b.filter_input) (("src/mod.rs").toList) = true
    ∧ ("src/mod.rs").toList ∉ (filterRecompute rsemMatchAll readEmpty stC4b).result :=
  ⟨by decide, C4_amended.1 rsemMatchAll readEmpty stC4b (("src/mod.rs").toList) (by decide)⟩

/-! ## Claim C5 -/

/-- C5: the filter memo is a single slot valid only for the exact query
pair.  Under the memo invariant: (hit) when the stored pair equals the
current pair the call returns the stored list with no file reads and the
state untouched; (fast path) when both queries trim to empty the call
returns the whole index with no reads and the state untouched (the stored
pair can never match there); (miss) otherwise the call recomputes and the
new memo is exactly the current query pair with the recomputed result. -/
theorem C5_memo (rsem : RegexSem) (readFile : Str → Option Str) (st : AppState)
    (hwf : memoWF st) :
    (∀ cf cfr cfi, st.filtered_files_cache = some (cf, cfr, cfi) →
        cf = st.filter_input → cfr = st.from_input →
        filterFiles rsem readFile st = ⟨cfi, st, []⟩)
    ∧ (bothTrimEmpty st → filterFiles rsem readFile st = ⟨st.files, st, []⟩)
    ∧ (¬bothTrimEmpty st →
        (∀ cf cfr cfi, st.filtered_files_cache = some (cf, cfr, cfi) →
            ¬(cf = st.filter_input ∧ cfr = st.from_input)) →
        filterFiles rsem readFile st = filterRecompute rsem readFile st
          ∧ (filterFiles rsem readFile st).state.filtered_files_cache =
              some (st.filter_input, st.from_input, (filterFiles rsem readFile st).result)) := by
  refine ⟨?_, ?_, ?_⟩
  · intro cf cfr cfi hmemo h1 h2
    have hne : ¬(trimChars st.filter_input = [] ∧ trimChars st.from_input = []) := by
      have hx := hwf cf cfr cfi hmemo
      rw [h1, h2] at hx
      exact hx
    simp only [filterFiles, hmemo]
    rw [if_neg hne, if_pos ⟨h1, h2⟩]
  · intro hb
    have hb' : trimChars st.filter_input = [] ∧ trimChars st.from_input = [] := hb
    unfold filterFiles
    rw [if_pos hb']
  · intro hb hmiss
    have hb' : ¬(trimChars st.filter_input = [] ∧ trimChars st.from_input = []) := hb
    have heq : filterFiles rsem readFile st = filterRecompute rsem readFile st := by
      unfold filterFiles
      rw [if_neg hb']
      cases hc : st.filtered_files_cache with
      | none => rfl
      | some triple =>
        obtain ⟨cf, cfr, cfi⟩ := triple
        show (if cf = st.filter_input ∧ cfr = st.from_input then
            (⟨cfi, st, []⟩ : FilterOutcome) else filterRecompute rsem readFile st) =
          filterRecompute rsem readFile st
        exact if_neg (hmiss cf cfr cfi hc)
    refine ⟨heq, ?_⟩
    rw [heq]
    rfl

/-- C5 witness: a memo hit on the concrete state `stC5`. -/
theorem C5_memo_witness :
    stC5.filtered_files_cache = some ((("x").toList), (("y").toList), [("f1").toList])
    ∧ filterFiles rsemMatchAll readNone stC5 = ⟨[("f1").toList], stC5, []⟩ := by
  have hwf : memoWF stC5 := by
    intro cf cfr cfi hmem
    simp only [stC5] at hmem
    simp only [Option.some.injEq, Prod.mk.injEq] at hmem
    obtain ⟨h1, h2, h3⟩ := hmem
    subst h1
    subst h2
    decide
  exact ⟨rfl, (C5_memo rsemMatchAll readNone stC5 hwf).1 _ _ _ rfl rfl rfl⟩

/-! ## Claim C7 -/

/-- C7: a create or modify event carrying path `p` removes exactly the
content-cache entry of `p` (every other path's entry unchanged) and clears
the filter memo, touching nothing else of the state; every other event kind
changes nothing at all. -/
theorem C7_watch (k : EventKind) (p : Str) (ps : List Str) (st : AppState) :
    ((k = .create ∨ k = .modify) →
      (onWatchEvent k (p :: ps) st).file_cache p = none
      ∧ (∀ q, q ≠ p → (onWatchEvent k (p :: ps) st).file_cache q = st.file_cache q)
      ∧ (onWatchEvent k (p :: ps) st).filtered_files_cache = none
      ∧ (onWatchEvent k (p :: ps) st).files = st.files
      ∧ (onWatchEvent k (p :: ps) st).from_input = st.from_input
      ∧ (onWatchEvent k (p :: ps) st).regex_cache = st.regex_cache)
    ∧ ((k = .remove ∨ k = .access ∨ k = .other) →
        onWatchEvent k (p :: ps) st = st) := by
  constructor
  · rintro (rfl | rfl) <;>
      exact ⟨by simp [onWatchEvent], fun q hq => by simp [onWatchEvent, hq],
        by simp [onWatchEvent], rfl, rfl, rfl⟩
  · rintro (rfl | rfl | rfl) <;> rfl

/-- C7 witness: a modify event for path `"a"` on the warm state `stW`. -/
theorem C7_watch_witness :
    (EventKind.modify = EventKind.create ∨ EventKind.modify = EventKind.modify)
    ∧ (onWatchEvent .modify [("a").toList] stW).file_cache (("a").toList) = none
    ∧ (onWatchEvent .modify [("a").toList] stW).file_cache (("b").toList) =
        stW.file_cache (("b").toList)
    ∧ (onWatchEvent .modify [("a").toList] stW).filtered_files_cache = none := by
  have h := (C7_watch .modify (("a").toList) [] stW).1 (Or.inr rfl)
  exact ⟨Or.inr rfl, h.1, h.2.1 _ (by decide), h.2.2.1⟩

/-! ## Claim C8 -/

/-- C8: a commit reads the file, computes the replacement with exactly the
preview's substitution (`previewReplaced`), overwrites the file in full and
then drops the path's content-cache entry and the filter memo; a read or
write failure is a per-file error that changes nothing; and in the concrete
three-file batch where the second file is unwritable, the first and third
files end up substituted on disk while the second keeps its old content —
the error did not stop the remaining commits. -/
theorem C8_commit (compile : RegexCompile) (fs : FS) (st : AppState) (p : Str) :
    (fs.content p = none → apply_substitution compile fs st p = (false, fs, st))
    ∧ (∀ c, fs.content p = some c → fs.writable p = false →
        apply_substitution compile fs st p = (false, fs, st))
    ∧ (∀ c, fs.content p = some c → fs.writable p = true →
        apply_substitution compile fs st p =
          (true,
            { fs with content := fun q =>
                if q = p then some (previewReplaced compile c st.from_input st.to_input)
                else fs.content q },
            { st with
                file_cache := fun q => if q = p then none else st.file_cache q
                filtered_files_cache := none }))
    ∧ ((commitAll litAnEngine fsC8 stC8 pathsC8).1.content (("f1").toList)
          = some (("bXXa").toList)
        ∧ (commitAll litAnEngine fsC8 stC8 pathsC8).1.content (("f2").toList)
          = some (("banana").toList)
        ∧ (commitAll litAnEngine fsC8 stC8 pathsC8).1.content (("f3").toList)
          = some (("bXXa").toList)) := by
  refine ⟨?_, ?_, ?_, by decide⟩
  · intro h
    simp [apply_substitution, h]
  · intro c h hw
    simp [apply_substitution, h, hw]
  · intro c h hw
    simp [apply_substitution, h, hw]

/-- C8 witness: a read failure on an unknown path is a per-file error that
changes neither the filesystem nor the caches. -/
theorem C8_commit_witness :
    fsC8.content (("g").toList) = none
    ∧ apply_substitution litAnEngine fsC8 stC8 (("g").toList) = (false, fsC8, stC8) :=
  ⟨by decide, (C8_commit litAnEngine fsC8 stC8 (("g").toList)).1 (by decide)⟩

end Ised
